import Mathlib

/-!
Shallow embedding of the Tic-Tac-Toe game-state core of this repository
(the final tutorial snapshot: `Game`, `Board.handleClick`, `handlePlay`,
`jumpTo`, `calculateWinner` in the unnamed source file; `src/App.js` holds
an earlier snapshot of the same functions).

Modelling choices, all taken from the JavaScript source:
* a cell holds `'X'`, `'◯'` or `null`; we embed it as `Option Player`
  (`none` for `null`).  JavaScript `undefined` (an out-of-range array read)
  is also embedded as `none`: the source only ever tests cells for
  truthiness or compares them with `===` after a truthiness test, so the
  `null`/`undefined` distinction is unobservable there.
* `squares[i]` is `jsGet`, `squares[i] = v` on a copied array is `jsSet`;
  a JavaScript write past the end of an array extends it, reading the
  holes back as `undefined`.
* React state (`xIsNext`, `history`, `currentMove`) becomes the
  `GameState` structure; an event handler becomes a function from the old
  state to the new one.  `handleClick` returns `none` when it hits its
  early `return` (no `onPlay` call, hence no state change at all).
-/

inductive Player where
  | X : Player
  | O : Player
deriving DecidableEq, Repr

/-- A cell of the board: `'X'`, `'◯'` or `null`/`undefined`. -/
abbrev Cell := Option Player

/-- A board snapshot: the JavaScript array `squares` (normally 9 cells). -/
abbrev Board := List Cell

/-- JavaScript array read `squares[i]`: out-of-range reads yield
`undefined`, embedded as `none`. -/
def jsGet (squares : Board) (i : Nat) : Cell :=
  (squares[i]?).getD none

/-- JavaScript array write `squares[i] = v` on a fresh copy: writing past
the end extends the array, the holes reading back as `undefined`. -/
def jsSet (squares : Board) (i : Nat) (v : Cell) : Board :=
  if i < squares.length then squares.set i v
  else squares ++ List.replicate (i - squares.length) none ++ [v]

/-- The table of the 8 winning index triples from `calculateWinner`. -/
def lines : List (Nat × Nat × Nat) :=
  [(0, 1, 2), (3, 4, 5), (6, 7, 8),
   (0, 3, 6), (1, 4, 7), (2, 5, 8),
   (0, 4, 8), (2, 4, 6)]

/-- One iteration of the loop body of `calculateWinner`:
`squares[a] && squares[a] === squares[b] && squares[a] === squares[c]`
yields `squares[a]`, otherwise the `return null` in the body fires. -/
def lineWinner (squares : Board) (l : Nat × Nat × Nat) : Option Player :=
  match jsGet squares l.1 with
  | some p =>
      if jsGet squares l.2.1 = some p ∧ jsGet squares l.2.2 = some p then
        some p
      else none
  | none => none

/-- `calculateWinner` as written in the source.  The `return null`
statement sits INSIDE the `for` loop body, so the first iteration always
returns: only the line `lines[0] = [0,1,2]` is ever examined. -/
def calculateWinner (squares : Board) : Option Player :=
  match lines with
  | [] => none
  | l :: _ => lineWinner squares l

/-- Modelled from the spec: `winner(board)` checks all 8 winning lines and
returns the mark of the first complete one, `None` if no line is complete
(§4.1).  Kept solely to compare the spec's intent with `calculateWinner`. -/
def winnerSpec (squares : Board) : Option Player :=
  lines.findSome? (lineWinner squares)

/-- The React state owned by the `Game` component:
`useState(true)`, `useState([Array(9).fill(null)])`, `useState(0)`. -/
structure GameState where
  xIsNext : Bool
  history : List Board
  currentMove : Nat
deriving DecidableEq, Repr

/-- The all-`null` board `Array(9).fill(null)`. -/
def board0 : Board := List.replicate 9 none

/-- The initial `Game` state. -/
def initialState : GameState :=
  { xIsNext := true, history := [board0], currentMove := 0 }

/-- `const currentSquares = history[currentMove]`.  In every reachable
state `currentMove` indexes into `history`; the default `[]` stands for
the `undefined` a JavaScript out-of-range read would produce. -/
def currentSquares (s : GameState) : Board :=
  (s.history[s.currentMove]?).getD []

/-- `handlePlay(nextSquares)`:
`nextHistory = [...history.slice(0, currentMove + 1), nextSquares]`,
then `setHistory`, `setCurrentMove(nextHistory.length - 1)`,
`setXIsNext(!xIsNext)`. -/
def handlePlay (s : GameState) (nextSquares : Board) : GameState :=
  let nextHistory := s.history.take (s.currentMove + 1) ++ [nextSquares]
  { xIsNext := !s.xIsNext,
    history := nextHistory,
    currentMove := nextHistory.length - 1 }

/-- `handleClick(i)` of the `Board` component, composed with the `onPlay`
callback (`handlePlay`).  `none` embeds the early
`if (squares[i] || calculateWinner(squares)) return;` — no `onPlay` call,
so the React state is left untouched.  On the other path the clicked cell
receives `'X'` or `'◯'` according to `xIsNext` and `handlePlay` runs. -/
def handleClick (s : GameState) (i : Nat) : Option GameState :=
  let squares := currentSquares s
  if (jsGet squares i).isSome || (calculateWinner squares).isSome then
    none
  else
    some (handlePlay s
      (jsSet squares i (some (if s.xIsNext then Player.X else Player.O))))

/-- A click as one step on the session state: a rejected click leaves the
state exactly as it was (the handler returned before any `set...` call). -/
def clickStep (s : GameState) (i : Nat) : GameState :=
  (handleClick s i).getD s

/-- `jumpTo(nextMove)`: `setCurrentMove(nextMove)`,
`setXIsNext(nextMove % 2 == 0)` — no validation of any kind. -/
def jumpTo (s : GameState) (nextMove : Nat) : GameState :=
  { s with currentMove := nextMove, xIsNext := nextMove % 2 == 0 }

/-- The states the running application can reach: the `Board` component
renders exactly the nine squares `handleClick 0 … handleClick 8`, and the
move list renders one `jumpTo move` button per existing history index. -/
inductive Reachable : GameState → Prop where
  | init : Reachable initialState
  | play {s s' : GameState} (i : Nat) (hi : i < 9) (hs : Reachable s)
      (h : handleClick s i = some s') : Reachable s'
  | jump {s : GameState} (m : Nat) (hm : m < s.history.length)
      (hs : Reachable s) : Reachable (jumpTo s m)

/-- The mark placed by the player who moves when `currentMove = n`:
`'X'` on even turns, `'◯'` on odd ones. -/
def markOf (n : Nat) : Player :=
  if n % 2 = 0 then Player.X else Player.O

/-- The mark opposite a given mark. -/
def opposite : Player → Player
  | Player.X => Player.O
  | Player.O => Player.X

/-- Number of marked (non-`null`) cells of a board. -/
def countMarks (b : Board) : Nat :=
  (b.filter Option.isSome).length

/-- `b'` is `b` with exactly the move of turn `n` applied: some legal
cell `i` of the 3×3 grid went from empty to the turn-`n` mark. -/
def StepOk (b b' : Board) (n : Nat) : Prop :=
  ∃ i, i < 9 ∧ jsGet b i = none ∧ b' = b.set i (some (markOf n))

/-- Shape invariant of a history list: snapshot `n` is a 9-cell board
carrying exactly `n` marks, and consecutive snapshots differ by exactly
the move of the corresponding turn. -/
def HistoryInv (h : List Board) : Prop :=
  (∀ n b, h[n]? = some b → b.length = 9 ∧ countMarks b = n) ∧
  (∀ n b b', h[n]? = some b → h[n + 1]? = some b' → StepOk b b' n)

/-- Invariant of reachable game states. -/
def GameInv (s : GameState) : Prop :=
  s.currentMove < s.history.length ∧
  s.xIsNext = (s.currentMove % 2 == 0) ∧
  HistoryInv s.history

/-! ### Basic lemmas about the embedding -/

lemma handlePlay_def (s : GameState) (ns : Board) :
    handlePlay s ns =
      { xIsNext := !s.xIsNext,
        history := s.history.take (s.currentMove + 1) ++ [ns],
        currentMove := (s.history.take (s.currentMove + 1) ++ [ns]).length - 1 } :=
  rfl

lemma jsSet_of_lt {b : Board} {i : Nat} (h : i < b.length) (v : Cell) :
    jsSet b i v = b.set i v := by
  simp [jsSet, h]

lemma jsGet_set_self {b : Board} {i : Nat} (h : i < b.length) (v : Cell) :
    jsGet (b.set i v) i = v := by
  simp [jsGet, List.getElem?_set_self (by simpa using h)]

lemma jsGet_set_ne {b : Board} {i j : Nat} (h : i ≠ j) (v : Cell) :
    jsGet (b.set i v) j = jsGet b j := by
  simp [jsGet, List.getElem?_set_ne h]

lemma getElem?_of_jsGet_none {b : Board} {i : Nat}
    (h : jsGet b i = none) (hi : i < b.length) : b[i]? = some none := by
  have hg : b[i]? = some b[i] := List.getElem?_eq_getElem hi
  unfold jsGet at h
  rw [hg] at h
  simp at h
  rw [hg, h]

lemma countMarks_cons (a : Cell) (t : Board) :
    countMarks (a :: t) = countMarks t + (if a.isSome then 1 else 0) := by
  cases a <;> simp [countMarks, List.filter_cons]

lemma countMarks_set (b : Board) (i : Nat) (p : Player)
    (h : b[i]? = some none) :
    countMarks (b.set i (some p)) = countMarks b + 1 := by
  induction b generalizing i with
  | nil => simp at h
  | cons a t ih =>
    cases i with
    | zero =>
      simp at h
      subst h
      simp [countMarks_cons]
    | succ j =>
      simp at h
      rw [List.set_cons_succ]
      rw [countMarks_cons, countMarks_cons, ih j h]
      omega

lemma countMarks_le (b : Board) : countMarks b ≤ b.length :=
  List.length_filter_le _ _

lemma next_parity (n : Nat) : ((n + 1) % 2 == 0) = !(n % 2 == 0) := by
  rcases Nat.mod_two_eq_zero_or_one n with h | h <;>
    simp [Nat.add_mod, h]

lemma handleClick_some {s s' : GameState} {i : Nat}
    (h : handleClick s i = some s') :
    jsGet (currentSquares s) i = none ∧
    calculateWinner (currentSquares s) = none ∧
    s' = handlePlay s (jsSet (currentSquares s) i
      (some (if s.xIsNext then Player.X else Player.O))) := by
  unfold handleClick at h
  by_cases hc : ((jsGet (currentSquares s) i).isSome ||
      (calculateWinner (currentSquares s)).isSome) = true
  · simp only [hc, if_pos] at h
    exact absurd h (by simp)
  · rw [Bool.or_eq_true, not_or] at hc
    obtain ⟨h1, h2⟩ := hc
    refine ⟨Option.not_isSome_iff_eq_none.mp h1,
            Option.not_isSome_iff_eq_none.mp h2, ?_⟩
    simp only [Option.not_isSome_iff_eq_none.mp h1,
      Option.not_isSome_iff_eq_none.mp h2] at h
    simp at h
    exact h.symm

lemma HistoryInv.take {h : List Board} (hh : HistoryInv h) (k : Nat) :
    HistoryInv (h.take k) := by
  obtain ⟨h1, h2⟩ := hh
  constructor
  · intro n b hb
    have hn : n < k := by
      by_contra hk
      rw [List.getElem?_take_eq_none (Nat.le_of_not_lt hk)] at hb
      exact absurd hb (by simp)
    rw [List.getElem?_take_of_lt hn] at hb
    exact h1 n b hb
  · intro n b b' hb hb'
    have hn : n + 1 < k := by
      by_contra hk
      rw [List.getElem?_take_eq_none (Nat.le_of_not_lt hk)] at hb'
      exact absurd hb' (by simp)
    rw [List.getElem?_take_of_lt (Nat.lt_of_le_of_lt (Nat.le_succ n) hn)] at hb
    rw [List.getElem?_take_of_lt hn] at hb'
    exact h2 n b b' hb hb'

lemma HistoryInv.snoc {h : List Board} {b nb : Board} {m : Nat}
    (hh : HistoryInv h) (hlen : h.length = m + 1) (hb : h[m]? = some b)
    (hstep : StepOk b nb m) (h9 : nb.length = 9)
    (hcnt : countMarks nb = m + 1) :
    HistoryInv (h ++ [nb]) := by
  obtain ⟨h1, h2⟩ := hh
  constructor
  · intro n b₀ hb₀
    rcases Nat.lt_or_ge n h.length with hn | hn
    · rw [List.getElem?_append_left hn] at hb₀
      exact h1 n b₀ hb₀
    · have hn' : n = m + 1 := by
        by_contra hne
        have : h.length + 1 ≤ n := by omega
        rw [List.getElem?_eq_none (by simpa using this)] at hb₀
        exact absurd hb₀ (by simp)
      subst hn'
      rw [List.getElem?_append_right hn, hlen] at hb₀
      simp at hb₀
      subst hb₀
      exact ⟨h9, hcnt⟩
  · intro n b₀ b₀' hb₀ hb₀'
    rcases Nat.lt_or_ge (n + 1) h.length with hn | hn
    · rw [List.getElem?_append_left hn] at hb₀'
      rw [List.getElem?_append_left (Nat.lt_of_le_of_lt (Nat.le_succ n) hn)] at hb₀
      exact h2 n b₀ b₀' hb₀ hb₀'
    · have hn' : n = m := by
        by_contra hne
        have : h.length + 1 ≤ n + 1 := by omega
        rw [List.getElem?_eq_none (by simpa using this)] at hb₀'
        exact absurd hb₀' (by simp)
      subst hn'
      rw [List.getElem?_append_left (by omega), hb] at hb₀
      rw [List.getElem?_append_right hn, hlen] at hb₀'
      simp at hb₀'
      injection hb₀ with hbe
      subst hbe
      subst hb₀'
      exact hstep

lemma currentSquares_getElem? {s : GameState}
    (h : s.currentMove < s.history.length) :
    s.history[s.currentMove]? = some (currentSquares s) := by
  rw [List.getElem?_eq_getElem h]
  simp [currentSquares, List.getElem?_eq_getElem h]

lemma reachable_inv {s : GameState} (hr : Reachable s) : GameInv s := by
  induction hr with
  | init =>
    refine ⟨by simp [initialState], by simp [initialState], ?_, ?_⟩
    · intro n b hb
      cases n with
      | zero =>
        simp [initialState] at hb
        subst hb
        exact ⟨by decide, by decide⟩
      | succ k =>
        simp [initialState] at hb
    · intro n b b' hb hb'
      cases n with
      | zero => simp [initialState] at hb'
      | succ k => simp [initialState] at hb'
  | @play s s' i hi hs h ih =>
    obtain ⟨hcm, hpar, hinv⟩ := ih
    obtain ⟨hg, _, hs'⟩ := handleClick_some h
    subst hs'
    have hcur := currentSquares_getElem? hcm
    obtain ⟨hb9, hbcnt⟩ := hinv.1 s.currentMove _ hcur
    have hi9 : i < (currentSquares s).length := hb9 ▸ hi
    have hmark : (some (if s.xIsNext then Player.X else Player.O) : Cell) =
        some (markOf s.currentMove) := by
      rw [hpar]
      rcases Nat.mod_two_eq_zero_or_one s.currentMove with hp | hp <;>
        simp [markOf, hp]
    rw [jsSet_of_lt hi9, hmark, handlePlay_def]
    have htlen : (s.history.take (s.currentMove + 1)).length =
        s.currentMove + 1 := List.length_take_of_le (by omega)
    have hlen : (s.history.take (s.currentMove + 1) ++
        [(currentSquares s).set i (some (markOf s.currentMove))]).length =
        s.currentMove + 2 := by
      simp [htlen]
    refine ⟨?_, ?_, ?_⟩
    · simp only [hlen]
      omega
    · simp only [hlen]
      have : s.currentMove + 2 - 1 = s.currentMove + 1 := by omega
      rw [this, next_parity, hpar]
    · refine HistoryInv.snoc (hinv.take (s.currentMove + 1)) htlen ?_
        ⟨i, hi, hg, rfl⟩ (by simpa using hb9)
        (by rw [countMarks_set _ _ _ (getElem?_of_jsGet_none hg hi9), hbcnt])
      rw [List.getElem?_take_of_lt (Nat.lt_succ_self _)]
      exact hcur
  | jump m hm hs ih =>
    obtain ⟨hcm, hpar, hinv⟩ := ih
    exact ⟨by simpa [jumpTo] using hm, by simp [jumpTo], by
      simpa [jumpTo] using hinv⟩

/-! ### Concrete states used by witnesses and counterexamples -/

/-- Board after X plays cell 0. -/
def bA : Board := board0.set 0 (some Player.X)

/-- Board after X plays cell 0 and ◯ plays cell 3. -/
def bB : Board := bA.set 3 (some Player.O)

/-- Board after X plays cells 0 and 1, ◯ plays cell 3. -/
def bC : Board := bB.set 1 (some Player.X)

/-- State after clicking square 0 in the initial state. -/
def st1 : GameState := { xIsNext := false, history := [board0, bA], currentMove := 1 }

/-- State after clicking squares 0 and 3 in the initial state. -/
def st2 : GameState := { xIsNext := true, history := [board0, bA, bB], currentMove := 2 }

/-- State after clicking squares 0 and 3, then jumping to move 2 and
clicking square 1. -/
def st3 : GameState :=
  { xIsNext := false, history := [board0, bA, bB, bC], currentMove := 3 }

/-- A board whose middle row is three X marks. -/
def midRowX : Board :=
  [none, none, none,
   some Player.X, some Player.X, some Player.X,
   none, none, none]

lemma reachable_st1 : Reachable st1 :=
  Reachable.play 0 (by decide) Reachable.init (by decide)

lemma reachable_st2 : Reachable st2 :=
  Reachable.play 3 (by decide) reachable_st1 (by decide)

/-! ### Claims -/

/-- Claim C1: the spec requires `winner` to scan all 8 lines and to report
the mark of any completed line.  The source's `calculateWinner` does not:
its `return null` sits inside the loop body, so only line `[0,1,2]` is
ever inspected.  On a board whose middle row is three X marks,
`calculateWinner` answers `none` while the all-lines evaluator demanded by
the spec answers `some X`. -/
theorem calculateWinner_ignores_middle_row :
    calculateWinner midRowX = none ∧ winnerSpec midRowX = some Player.X := by
  decide

/-- Claim C2 (counterexample): `jumpTo 5` on a history of length 3 does
not fail and does not leave `currentMove` unchanged — the source's
`jumpTo` performs no range validation at all. -/
theorem jumpTo_out_of_range_mutates :
    st2.history.length = 3 ∧ st2.currentMove = 2 ∧
    (jumpTo st2 5).currentMove = 5 := by
  decide

/-- Claim C2 (amended): `jumpTo move` never fails: for every move index,
in range or not, it sets `currentMove := move` and
`xIsNext := (move % 2 == 0)` and leaves `history` untouched. -/
theorem jumpTo_unvalidated (s : GameState) (m : Nat) :
    (jumpTo s m).currentMove = m ∧ (jumpTo s m).history = s.history ∧
    (jumpTo s m).xIsNext = (m % 2 == 0) :=
  ⟨rfl, rfl, rfl⟩

/-- Claim C3: clicking an already-marked cell is rejected by the
`if (squares[i] || ...)` guard: `handleClick` yields no new state, and
the session state is left exactly as it was. -/
theorem applyMove_occupied_noop (s : GameState) (i : Nat) (p : Player)
    (h : jsGet (currentSquares s) i = some p) :
    handleClick s i = none ∧ clickStep s i = s := by
  have hnone : handleClick s i = none := by
    unfold handleClick
    simp [h]
  exact ⟨hnone, by simp [clickStep, hnone]⟩

theorem applyMove_occupied_noop_witness :
    handleClick st1 0 = none ∧ clickStep st1 0 = st1 :=
  applyMove_occupied_noop st1 0 Player.X (by decide)

/-- Claim C4 (counterexample): `handleClick` has no `0 ≤ index < 9`
check.  Index 9 lies outside the board, yet on the initial state the
guard reads `squares[9]` as `undefined` (falsy), accepts the move, and
appends a 10-cell board to the history: state IS mutated and no error is
reported. -/
theorem applyMove_out_of_range_accepted :
    handleClick initialState 9 =
      some { xIsNext := false,
             history := [board0, board0 ++ [some Player.X]],
             currentMove := 1 } := by
  decide

/-- Claim C4 (amended): the source rejects a click exactly when the
clicked cell reads as marked or `calculateWinner` reports a winner;
there is no separate `0 ≤ index < 9` legality condition. -/
theorem applyMove_rejected_iff (s : GameState) (i : Nat) :
    handleClick s i = none ↔
      (jsGet (currentSquares s) i ≠ none ∨
       calculateWinner (currentSquares s) ≠ none) := by
  unfold handleClick
  rcases hg : jsGet (currentSquares s) i with _ | p
  · rcases hw : calculateWinner (currentSquares s) with _ | q
    · simp [hg, hw]
    · simp [hg, hw]
  · simp [hg]

/-- Claim C5: from any state whose history has at least `m + 1`
snapshots, `jumpTo m` followed by a successful click truncates the
history after index `m` and appends the one new board: the result has
exactly `m + 2` snapshots, its first `m + 1` snapshots are the old ones,
and its last snapshot is the newly played board. -/
theorem jumpTo_then_play_truncates (s : GameState) (m i : Nat)
    (s' : GameState) (hm : m + 1 ≤ s.history.length)
    (h : handleClick (jumpTo s m) i = some s') :
    s'.history.length = m + 2 ∧
    s'.history.take (m + 1) = s.history.take (m + 1) ∧
    s'.history[m + 1]? =
      some (jsSet (currentSquares (jumpTo s m)) i
        (some (if (jumpTo s m).xIsNext then Player.X else Player.O))) := by
  obtain ⟨-, -, hs'⟩ := handleClick_some h
  subst hs'
  rw [handlePlay_def]
  have hj : (jumpTo s m).currentMove = m := rfl
  have hjh : (jumpTo s m).history = s.history := rfl
  rw [hj, hjh]
  have htlen : (s.history.take (m + 1)).length = m + 1 :=
    List.length_take_of_le hm
  refine ⟨by simp [htlen], ?_, ?_⟩
  · exact List.take_left' htlen
  · rw [List.getElem?_append_right (by omega), htlen]
    simp

theorem jumpTo_then_play_truncates_witness :
    st3.history.length = 2 + 2 ∧
    st3.history.take (2 + 1) = st2.history.take (2 + 1) ∧
    st3.history[2 + 1]? =
      some (jsSet (currentSquares (jumpTo st2 2)) 1
        (some (if (jumpTo st2 2).xIsNext then Player.X else Player.O))) :=
  jumpTo_then_play_truncates st2 2 1 st3 (by decide) (by decide)

/-- Claim C6: every successful click advances `currentMove` by exactly
one and flips the turn flag, so the next mark to be played is the
opposite of the one just played. -/
theorem applyMove_increments (s : GameState) (i : Nat) (s' : GameState)
    (hr : Reachable s) (h : handleClick s i = some s') :
    s'.currentMove = s.currentMove + 1 ∧
    s'.xIsNext = !s.xIsNext ∧
    (if s'.xIsNext then Player.X else Player.O) =
      opposite (if s.xIsNext then Player.X else Player.O) := by
  obtain ⟨hcm, -, -⟩ := reachable_inv hr
  obtain ⟨-, -, hs'⟩ := handleClick_some h
  subst hs'
  rw [handlePlay_def]
  have htlen : (s.history.take (s.currentMove + 1)).length =
      s.currentMove + 1 := List.length_take_of_le (by omega)
  refine ⟨by simp [htlen], rfl, ?_⟩
  cases hx : s.xIsNext <;> simp [opposite]

theorem applyMove_increments_witness :
    st1.currentMove = initialState.currentMove + 1 ∧
    st1.xIsNext = !initialState.xIsNext ∧
    (if st1.xIsNext then Player.X else Player.O) =
      opposite (if initialState.xIsNext then Player.X else Player.O) :=
  applyMove_increments initialState 0 st1 Reachable.init (by decide)

/-- Claim C7: in every reachable state, consecutive history snapshots
differ in exactly one cell of the 3×3 grid, and that cell goes from
empty to the mark of the player whose turn it was (`X` for an even
predecessor index, `◯` for an odd one). -/
theorem history_adjacent_diff (s : GameState) (hr : Reachable s)
    (n : Nat) (b b' : Board) (hb : s.history[n]? = some b)
    (hb' : s.history[n + 1]? = some b') :
    ∃ i, i < 9 ∧ jsGet b i = none ∧ jsGet b' i = some (markOf n) ∧
      ∀ j, j ≠ i → jsGet b' j = jsGet b j := by
  obtain ⟨-, -, hinv⟩ := reachable_inv hr
  obtain ⟨hb9, -⟩ := hinv.1 n b hb
  obtain ⟨i, hi, hgn, hset⟩ := hinv.2 n b b' hb hb'
  subst hset
  have hi9 : i < b.length := hb9 ▸ hi
  exact ⟨i, hi, hgn, jsGet_set_self hi9 _,
    fun j hj => jsGet_set_ne (fun he => hj he.symm) _⟩

theorem history_adjacent_diff_witness :
    ∃ i, i < 9 ∧ jsGet board0 i = none ∧
      jsGet bA i = some (markOf 0) ∧
      ∀ j, j ≠ i → jsGet bA j = jsGet board0 j :=
  history_adjacent_diff st1 reachable_st1 0 board0 bA (by decide) (by decide)

/-- Claim C8: an in-range `jumpTo move` sets `currentMove` to `move`,
leaves the history untouched, and the player to move afterwards is `X`
exactly when `move` is even. -/
theorem jumpTo_in_range (s : GameState) (m : Nat)
    (_hm : m < s.history.length) :
    (jumpTo s m).currentMove = m ∧ (jumpTo s m).history = s.history ∧
    ((if (jumpTo s m).xIsNext then Player.X else Player.O) = Player.X ↔
      m % 2 = 0) := by
  refine ⟨rfl, rfl, ?_⟩
  show (if (m % 2 == 0 : Bool) then Player.X else Player.O) = Player.X ↔ _
  rcases Nat.mod_two_eq_zero_or_one m with hp | hp <;> simp [hp]

theorem jumpTo_in_range_witness :
    (jumpTo st1 0).currentMove = 0 ∧ (jumpTo st1 0).history = st1.history ∧
    ((if (jumpTo st1 0).xIsNext then Player.X else Player.O) = Player.X ↔
      0 % 2 = 0) :=
  jumpTo_in_range st1 0 (by decide)

/-- Claim C9: the history of a reachable state never exceeds 10
snapshots: the initial all-empty board plus at most one per cell of the
3×3 grid, since snapshot `n` carries exactly `n` marks on 9 cells. -/
theorem history_length_le_ten (s : GameState) (hr : Reachable s) :
    s.history.length ≤ 10 := by
  obtain ⟨hcm, -, hinv⟩ := reachable_inv hr
  have hlt : s.history.length - 1 < s.history.length := by omega
  obtain ⟨hb9, hbcnt⟩ :=
    hinv.1 _ _ (List.getElem?_eq_getElem hlt)
  have hle := countMarks_le (s.history[s.history.length - 1])
  rw [hb9] at hle
  omega

theorem history_length_le_ten_witness : st2.history.length ≤ 10 :=
  history_length_le_ten st2 reachable_st2

/-- Claim C10: in every state reachable from the initial one via clicks
and in-range jumps, the stored flag `xIsNext` coincides with the parity
of `currentMove`: the duplicated turn flag never desynchronises. -/
theorem xIsNext_parity (s : GameState) (hr : Reachable s) :
    s.xIsNext = (s.currentMove % 2 == 0) :=
  (reachable_inv hr).2.1

theorem xIsNext_parity_witness :
    st1.xIsNext = (st1.currentMove % 2 == 0) :=
  xIsNext_parity st1 reachable_st1
